import Mathlib

/-!
# Verification of `versioned_config` (config_object/versioned_config.py)

A shallow embedding of the serialization / deserialization / migration engine
of `VersionedConfigObject`, together with theorems settling the claims about
its natural-language specification.

Modelling conventions:

* A Python runtime value is a `Value`.  Machine floats are never computed on by
  the library (they are only stored and compared), so a float is an opaque tag.
  `vother cls isCallable` stands for any other Python object (e.g. `object()`,
  a tuple, a bound method stored in `__dict__`), carrying its class name and
  whether it is callable.  `vnone` is Python's `None`.
* A Python `dict` is an association list `Tree := List (Value × Value)`,
  in insertion order.  Lookup finds the first matching key; update rewrites
  every entry holding the key and delete removes every entry holding the key —
  with the unique keys a real `dict` has, these agree with Python exactly.
* An `Obj` is an instance of (a subclass of) `VersionedConfigObject`:
  its class name, its `__dict__` (name/value pairs in insertion order; entries
  whose name starts with `_` model private attributes), the names of its
  class-level attributes (methods, properties, `VERSION`, ... — what `hasattr`
  can see beyond the instance `__dict__`), its class `VERSION` (`vnone` meaning
  the Python `None`, i.e. unversioned), the optional `_config_version_key`
  override, and the optional `_migrations` list (`none` models the attribute
  being absent).
* A migration function is an opaque callable in the source.  It is modelled by
  an index into an environment `MigEnv`; each `Transform` records both the
  state its dict argument is left in (`mutate`, in-place mutation) and the
  value it returns (`retFresh = none` means "returns its own argument",
  `some t` means "returns the distinct fresh dict `t`").  This captures the
  aliasing that the Python code relies on: `_migrate` rebinds its local
  `attrs` to each returned dict but returns `None`, so the caller only ever
  observes the in-place mutations of the dict object it passed in.
* Stateful methods are embedded by explicit state passing, returning the final
  state of the object (and of the caller's tree) next to the result; a raised
  exception is an `Err` value, returned together with the state at the point
  of the raise (Python does not roll back on raise).
* Python `==` on the values this library compares (version tokens, dict keys)
  is structural equality on scalars, strings, lists and dicts, embedded as
  `vbeq`.  (Identity comparison of two config objects, or Python's numeric
  cross-type equalities like `True == 1`, are never exercised by the library
  or the claims.)
-/

set_option maxHeartbeats 1000000

namespace VC

mutual

/-- A Python runtime value as handled by `versioned_config.py`. -/
inductive Value where
  | vnone  : Value
  | vint   : Int → Value
  | vfloat : Nat → Value
  | vbool  : Bool → Value
  | vstr   : String → Value
  | vlist  : List Value → Value
  | vdict  : List (Value × Value) → Value
  | vobj   : Obj → Value
  | vother : String → Bool → Value

/-- An instance of (a subclass of) `VersionedConfigObject`:
`mk className fields classAttrs version verKeyOverride migrations`. -/
inductive Obj where
  | mk : String → List (String × Value) → List String → Value →
         Option String → Option (List (Value × Value × Nat)) → Obj

end

/-- A Python dict, in insertion order. -/
abbrev Tree := List (Value × Value)

def Obj.className : Obj → String
  | .mk c _ _ _ _ _ => c

def Obj.fields : Obj → List (String × Value)
  | .mk _ f _ _ _ _ => f

def Obj.classAttrs : Obj → List String
  | .mk _ _ a _ _ _ => a

def Obj.version : Obj → Value
  | .mk _ _ _ v _ _ => v

def Obj.verKeyOverride : Obj → Option String
  | .mk _ _ _ _ k _ => k

def Obj.migrations : Obj → Option (List (Value × Value × Nat))
  | .mk _ _ _ _ _ m => m

/-- Replace the instance `__dict__` of an object. -/
def Obj.withFields : Obj → List (String × Value) → Obj
  | .mk c _ a v k m, f => .mk c f a v k m

mutual

/-- Python `==` on the values the library compares (structural). -/
def vbeq : Value → Value → Bool
  | .vnone, .vnone => true
  | .vint a, .vint b => a == b
  | .vfloat a, .vfloat b => a == b
  | .vbool a, .vbool b => a == b
  | .vstr a, .vstr b => a == b
  | .vlist a, .vlist b => vlistBeq a b
  | .vdict a, .vdict b => vpairsBeq a b
  | .vobj a, .vobj b => objBeq a b
  | .vother a c, .vother b d => a == b && c == d
  | _, _ => false

def vlistBeq : List Value → List Value → Bool
  | [], [] => true
  | x :: xs, y :: ys => vbeq x y && vlistBeq xs ys
  | _, _ => false

def vpairsBeq : List (Value × Value) → List (Value × Value) → Bool
  | [], [] => true
  | (k₁, v₁) :: xs, (k₂, v₂) :: ys => vbeq k₁ k₂ && vbeq v₁ v₂ && vpairsBeq xs ys
  | _, _ => false

def objBeq : Obj → Obj → Bool
  | .mk c₁ f₁ a₁ v₁ k₁ m₁, .mk c₂ f₂ a₂ v₂ k₂ m₂ =>
      c₁ == c₂ && fieldsBeq f₁ f₂ && a₁ == a₂ && vbeq v₁ v₂ && k₁ == k₂ && migsBeq m₁ m₂

def fieldsBeq : List (String × Value) → List (String × Value) → Bool
  | [], [] => true
  | (n₁, v₁) :: xs, (n₂, v₂) :: ys => n₁ == n₂ && vbeq v₁ v₂ && fieldsBeq xs ys
  | _, _ => false

def migsBeq : Option (List (Value × Value × Nat)) → Option (List (Value × Value × Nat)) → Bool
  | none, none => true
  | some a, some b => migListBeq a b
  | _, _ => false

def migListBeq : List (Value × Value × Nat) → List (Value × Value × Nat) → Bool
  | [], [] => true
  | (f₁, t₁, i₁) :: xs, (f₂, t₂, i₂) :: ys =>
      vbeq f₁ f₂ && vbeq t₁ t₂ && i₁ == i₂ && migListBeq xs ys
  | _, _ => false

end

/-! ## Python dict operations on `Tree` -/

/-- `k in t` (Python dict key membership). -/
def dictHasKey (k : Value) (t : Tree) : Bool :=
  t.any fun p => vbeq p.1 k

/-- `t[k]` as an option (first matching entry). -/
def dictGet (k : Value) : Tree → Option Value
  | [] => none
  | (k', v) :: rest => if vbeq k' k then some v else dictGet k rest

/-- `t[k] = v`: update an existing key in place, else append. -/
def dictSet (k v : Value) (t : Tree) : Tree :=
  if dictHasKey k t then t.map (fun p => if vbeq p.1 k then (p.1, v) else p)
  else t ++ [(k, v)]

/-- `del t[k]` (the key is assumed present; `fromJsonObj` checks first). -/
def dictDel (k : Value) (t : Tree) : Tree :=
  t.filter fun p => !(vbeq p.1 k)

/-- The keys of a dict, in insertion order, without duplicates
(as Python's key iteration produces them). -/
def dictKeysAux : Tree → List Value → List Value
  | [], acc => acc.reverse
  | (k, _) :: rest, acc =>
      if acc.any (vbeq k ·) then dictKeysAux rest acc else dictKeysAux rest (k :: acc)

def dictKeys (t : Tree) : List Value := dictKeysAux t []

/-- Association lookup in an instance `__dict__` (`self.__dict__[n]` /
`getattr(self, n)` for instance attributes). -/
def fieldsGet (n : String) : List (String × Value) → Option Value
  | [] => none
  | (n', v) :: rest => if n' == n then some v else fieldsGet n rest

/-- `setattr(self, n, v)`: overwrite the named entry (append if absent). -/
def fieldsSet (n : String) (v : Value) (fs : List (String × Value)) :
    List (String × Value) :=
  if fs.any (fun p => p.1 == n) then fs.map (fun p => if p.1 == n then (p.1, v) else p)
  else fs ++ [(n, v)]

/-! ## Type predicates from the source -/

/-- `_is_serializable_builtin`: `type(obj) in [int, float, bool, str, list, dict]`. -/
def isSerializableBuiltin : Value → Bool
  | .vint _ | .vfloat _ | .vbool _ | .vstr _ | .vlist _ | .vdict _ => true
  | _ => false

/-- Python `callable(v)` for values stored in an instance `__dict__`
(builtin data values and config objects are not callable). -/
def isCallableV : Value → Bool
  | .vother _ c => c
  | _ => false

/-- `v.__class__.__name__`, used in error messages. -/
def valueClassName : Value → String
  | .vnone => "NoneType"
  | .vint _ => "int"
  | .vfloat _ => "float"
  | .vbool _ => "bool"
  | .vstr _ => "str"
  | .vlist _ => "list"
  | .vdict _ => "dict"
  | .vobj o => o.className
  | .vother cls _ => cls

/-- The exceptions this code can raise.  `valueErrorReserved` is the
`ValueError` for a reserved-name conflict (carrying the `%s`-interpolated
name); `keyError` is Python's `KeyError`; `typeError` stands for the
value-dependent misbehaviour of passing a non-dict where a dict is expected
(never exercised by the claims); `nameErrorUnbound` is Python's `NameError`
for reading the loop variable `n` when the loop body never ran (unreachable
on the reserved-name path, since a conflicting key always comes from an
enumerated field). -/
inductive Err where
  | objectNotSerializable (cls : String)
  | invalidFieldName (n : String)
  | migrationFailed (cls : String) (fromV toV : Value)
  | valueErrorReserved (n : String)
  | keyError (k : String)
  | typeError
  | nameErrorUnbound

/-! ## Attribute plumbing from the source -/

/-- Python `n.startswith('_')`: the first character is an underscore. -/
def underscoredName (n : String) : Bool :=
  match n.data with
  | [] => false
  | c :: _ => c == '_'

/-- The `config_version_key` property: the `_config_version_key` override if
set, else `DEFAULT_CONFIG_VERSION_KEY = "config_version"`. -/
def configVersionKey (o : Obj) : String :=
  o.verKeyOverride.getD "config_version"

/-- Python `hasattr(self, n)`: true if `n` is in the instance `__dict__` or is
a class attribute. -/
def hasattrB (o : Obj) (n : String) : Bool :=
  o.fields.any (fun p => p.1 == n) || o.classAttrs.contains n

/-- `_is_instance_var`:
`hasattr(self, n) and (not callable(self.__dict__[n])) and (not n.startswith('_'))`.
When `hasattr` holds only through a class attribute (a method, property, or
class variable), the `self.__dict__[n]` subscript raises `KeyError`. -/
def isInstanceVar (o : Obj) (n : String) : Except Err Bool :=
  if hasattrB o n then
    match fieldsGet n o.fields with
    | some v => .ok (!(isCallableV v) && !(underscoredName n))
    | none => .error (.keyError n)
  else .ok false

/-- One entry of `_instance_varname_generator`'s filter: not callable and not
underscore-prefixed. -/
def isPublicField (n : String) (v : Value) : Bool :=
  !(isCallableV v) && !(underscoredName n)

/-- The name of the last field yielded by `_instance_varname_generator` —
the leaked loop variable `n` after the serialization loop finishes. -/
def lastPublicName (fs : List (String × Value)) : Option String :=
  ((fs.filter fun p => isPublicField p.1 p.2).getLast?).map (·.1)

/-! ## The migration chain -/

/-- The observable behaviour of one opaque Python migration callable:
`mutate` is the state it leaves its dict argument in; `retFresh arg = none`
means it returns its own argument, `some t` means it returns a distinct,
freshly built dict `t`. -/
structure Transform where
  mutate : Tree → Tree
  retFresh : Tree → Option Tree

/-- An environment interpreting migration-function indices. -/
abbrev MigEnv := Nat → Transform

/-- The `for m in self._migrations` loop of `_migrate`, with the heap made
explicit: `orig` is the state of the dict object the caller passed in, `cur`
is what the local variable `attrs` denotes (`none`: it still aliases the
caller's dict; `some t`: it denotes a fresh dict of value `t`), and `v` is
`curr_version`.  Returns the final `(orig, cur, curr_version)`. -/
def migLoop (env : MigEnv) :
    List (Value × Value × Nat) → Tree → Option Tree → Value →
    Tree × Option Tree × Value
  | [], orig, cur, v => (orig, cur, v)
  | (f, t, fid) :: rest, orig, cur, v =>
    if vbeq f v then
      let arg := cur.getD orig
      let arg' := (env fid).mutate arg
      match cur, (env fid).retFresh arg with
      | none, none => migLoop env rest arg' none t
      | none, some fr => migLoop env rest arg' (some fr) t
      | some _, none => migLoop env rest orig (some arg') t
      | some _, some fr => migLoop env rest orig (some fr) t
    else migLoop env rest orig cur v

/-- `_migrate(self, attrs, old_version, target_version)` at its only call site
(`target_version = self.__class__.VERSION`).  Returns the final state of the
caller's dict object, and the `VersionedConfigMigrationError` if raised.
A missing `_migrations` attribute (`o.migrations = none`) fails immediately;
otherwise a single pass over the registered steps is made and success requires
the version reached to equal the target. -/
def migrateModel (env : MigEnv) (o : Obj) (attrs : Tree) (oldV : Value) :
    Tree × Option Err :=
  match o.migrations with
  | none => (attrs, some (.migrationFailed o.className oldV o.version))
  | some migs =>
    let res := migLoop env migs attrs none oldV
    if vbeq res.2.2 o.version then (res.1, none)
    else (res.1, some (.migrationFailed o.className oldV o.version))

/-! ## `to_json_serializable`

Embedded with the object state threaded through explicitly: the result pairs
the returned tree (or raised error) with the state of the object after the
call, so that the no-side-effect claim is a theorem rather than a modelling
assumption.  The only way a call could change the object is through the
recursive serialization of a nested child object (the parent's field keeps
referencing the same child), so the threading updates that field with the
child's post-call state. -/

mutual

/-- The body of the `for n in self._instance_varname_generator()` loop:
serialize the public fields of `fs` into the accumulator dict `acc`, and
return the loop result with the post-call state of the field list. -/
def serFields : List (String × Value) → Tree → (Except Err Tree) × List (String × Value)
  | [], acc => (.ok acc, [])
  | (n, v) :: rest, acc =>
    if isPublicField n v then
      match v with
      | .vobj child =>
        match serObj child with
        | (.error e, child') => (.error e, (n, .vobj child') :: rest)
        | (.ok ct, child') =>
          let r := serFields rest (dictSet (.vstr n) (.vdict ct) acc)
          (r.1, (n, .vobj child') :: r.2)
      | _ =>
        if isSerializableBuiltin v then
          let r := serFields rest (dictSet (.vstr n) v acc)
          (r.1, (n, v) :: r.2)
        else (.error (.objectNotSerializable (valueClassName v)), (n, v) :: rest)
    else
      let r := serFields rest acc
      (r.1, (n, v) :: r.2)

/-- `to_json_serializable`: serialize the public fields, then, if the class is
versioned (`VERSION is not None`), reject a user field occupying the version
key (the raised `ValueError` interpolates the leaked loop variable `n` — the
last enumerated field name) and otherwise append the version token under the
version key. -/
def serObj : Obj → (Except Err Tree) × Obj
  | .mk c f a v k m =>
    match serFields f [] with
    | (.error e, f') => (.error e, .mk c f' a v k m)
    | (.ok attrs, f') =>
      let o' := Obj.mk c f' a v k m
      if vbeq v .vnone then (.ok attrs, o')
      else
        let key := k.getD "config_version"
        if dictHasKey (.vstr key) attrs then
          match lastPublicName f with
          | some n => (.error (.valueErrorReserved n), o')
          | none => (.error .nameErrorUnbound, o')
        else (.ok (dictSet (.vstr key) v attrs), o')

end

/-! ## `from_json_serializable`

Embedded with both the object state and the caller's tree state threaded
explicitly.  The field-population loop iterates over the (unique) keys of the
tree; each key is visited exactly once, and `setattr`/`getattr` touch only the
entry of that key, so every read of field `n` during the loop sees the value
the field held at entry of the call.  The loop therefore reads from the
original object `o` and accumulates the overwritten field list `fs`
separately; this is observationally the code's in-place mutation, and it makes
the recursion into a nested child object structural in `o`. -/

/-- `sizeOf` of the field list is below the object's (termination measure). -/
def sizeOf_fields_lt (o : Obj) : sizeOf o.fields < sizeOf o := by
  cases o
  simp [Obj.fields]
  omega

/-- `sizeOf` of a successful `__dict__` lookup is below the list's
(termination measure). -/
def sizeOf_fieldsGet {n : String} :
    ∀ {fs : List (String × Value)} {v : Value},
      fieldsGet n fs = some v → sizeOf v < sizeOf fs
  | (n', v') :: rest, v, h => by
    by_cases hn : (n' == n) = true
    · simp [fieldsGet, hn] at h
      subst h
      simp
      omega
    · simp [fieldsGet, hn] at h
      have := sizeOf_fieldsGet h
      simp
      omega

mutual

/-- `from_json_serializable(self, attrs)`: version handling (comparison,
migration, deletion of the version key from the caller's dict), then field
population.  Returns the final object state, the final state of the caller's
dict, and the raised exception if any. -/
def fromJsonObj (env : MigEnv) (o : Obj) (t : Tree) : Obj × Tree × Option Err :=
  let key := configVersionKey o
  match dictGet (.vstr key) t with
  | some v =>
    let m := if vbeq v o.version then (t, none) else migrateModel env o t v
    match m with
    | (t₁, some e) => (o, t₁, some e)
    | (t₁, none) =>
      if dictHasKey (.vstr key) t₁ then
        let t₂ := dictDel (.vstr key) t₁
        popLoop env o o.fields t₂ (dictKeys t₂)
      else
        -- `del attrs[key]` after an (in-place) migration removed the key
        (o, t₁, some (.keyError key))
  | none => popLoop env o o.fields t (dictKeys t)
termination_by (sizeOf o, 1, 0)
decreasing_by
  all_goals exact Prod.Lex.right _ (Prod.Lex.left _ _ (Nat.lt_succ_self 0))

/-- The `for n in attrs` population loop.  `o` is the object at entry of the
call (reads), `fs` the accumulated field state (writes), `t` the current
state of the caller's tree, `ks` the keys left to process. -/
def popLoop (env : MigEnv) (o : Obj) (fs : List (String × Value)) (t : Tree) :
    List Value → Obj × Tree × Option Err
  | [] => (o.withFields fs, t, none)
  | kv :: ks =>
    match kv with
    | .vstr n =>
      match isInstanceVar o n with
      | .error e => (o.withFields fs, t, some e)
      | .ok false => (o.withFields fs, t, some (.invalidFieldName n))
      | .ok true =>
        match hg : fieldsGet n o.fields with
        | none =>
          -- unreachable: `isInstanceVar` returned true, so the field exists
          (o.withFields fs, t, some (.keyError n))
        | some cur =>
          match cur with
          | .vobj child =>
            match dictGet (.vstr n) t with
            | some (.vdict sub) =>
              let r := fromJsonObj env child sub
              let fs' := fieldsSet n (.vobj r.1) fs
              let t' := dictSet (.vstr n) (.vdict r.2.1) t
              match r.2.2 with
              | some e => (o.withFields fs', t', some e)
              | none => popLoop env o fs' t' ks
            | some _ =>
              -- a non-dict where `from_json_serializable` expects a dict:
              -- Python misbehaves in value-dependent ways; never exercised
              (o.withFields fs, t, some .typeError)
            | none => (o.withFields fs, t, some (.keyError n))
          | _ =>
            if isSerializableBuiltin cur then
              match dictGet (.vstr n) t with
              | some v => popLoop env o (fieldsSet n v fs) t ks
              | none => (o.withFields fs, t, some (.keyError n))
            else (o.withFields fs, t, some (.objectNotSerializable (valueClassName cur)))
    | _ =>
      -- `hasattr(self, n)` with a non-string name raises `TypeError`
      (o.withFields fs, t, some .typeError)
termination_by ks => (sizeOf o, 0, ks.length)
decreasing_by
  all_goals simp_wf
  · exact Prod.Lex.left _ _
      (Nat.lt_trans (Nat.lt_trans (by simp) (sizeOf_fieldsGet hg))
        (sizeOf_fields_lt o))
  · exact Prod.Lex.right _ (Prod.Lex.right _ (Nat.lt_succ_self _))
  · exact Prod.Lex.right _ (Prod.Lex.right _ (Nat.lt_succ_self _))

end

/-! ## Derived descriptions of the single-pass walk

These two functions are not translations of further source code; they are
compact descriptions of what the one `for m in self._migrations` pass
computes, proved equal to `migLoop`'s behaviour below.  `passVersion` is the
version bookkeeping of the pass (it ignores the trees entirely);
`passTree` is the tree produced by the pass when every transform mutates its
argument in place and returns it (the only situation the tests exercise). -/

def passVersion : List (Value × Value × Nat) → Value → Value
  | [], v => v
  | (f, tv, _) :: rest, v =>
      if vbeq f v then passVersion rest tv else passVersion rest v

def passTree (env : MigEnv) : List (Value × Value × Nat) → Tree → Value → Tree
  | [], t, _ => t
  | (f, tv, fid) :: rest, t, v =>
      if vbeq f v then passTree env rest ((env fid).mutate t) tv
      else passTree env rest t v

/-- The step list is a connected chain from `v` to `target`, in registration
order: each step starts at the version the previous one reached. -/
def chainedFrom : List (Value × Value × Nat) → Value → Value → Prop
  | [], v, target => vbeq v target = true
  | (f, tv, _) :: rest, v, target => vbeq f v = true ∧ chainedFrom rest tv target

/-! ## Concrete instances used by counterexamples and witnesses -/

/-- The environment of migration functions used by the concrete instances.
Indices 0–2 are the three in-place transforms of the spec's §8 example
(`1.0.0→1.0.1` adds `b=77`; `1.0.1→1.0.2` adds `x=88`; `1.0.2→1.0.3` removes
`c` and adds `y=99`, each returning its mutated argument, as the repository's
tests do); index 3 leaves its argument untouched and returns the freshly
built mapping `{"a": 5}` instead. -/
def cEnv : MigEnv := fun n =>
  match n with
  | 0 => ⟨fun t => dictSet (.vstr "b") (.vint 77) t, fun _ => none⟩
  | 1 => ⟨fun t => dictSet (.vstr "x") (.vint 88) t, fun _ => none⟩
  | 2 => ⟨fun t => dictSet (.vstr "y") (.vint 99) (dictDel (.vstr "c") t), fun _ => none⟩
  | _ => ⟨fun t => t, fun _ => some [(.vstr "a", .vint 5)]⟩

/-- The spec's §8 migration object with the three chain steps registered in
path order (the repository's `test_versioned_config_multiple_migrations`). -/
def chainObj : Obj := .mk "VC1"
  [("a", .vint 1), ("b", .vint 2), ("x", .vint 3), ("y", .vint 4)]
  ["VERSION", "config_version_key", "add_migration"] (.vstr "1.0.3") none
  (some [(.vstr "1.0.0", .vstr "1.0.1", 0), (.vstr "1.0.1", .vstr "1.0.2", 1),
         (.vstr "1.0.2", .vstr "1.0.3", 2)])

/-- The same three chain steps registered in the reverse order: still a
connected path `1.0.0 → 1.0.1 → 1.0.2 → 1.0.3`, only the registration order
differs. -/
def chainObjRev : Obj := .mk "VC1"
  [("a", .vint 1), ("b", .vint 2), ("x", .vint 3), ("y", .vint 4)]
  ["VERSION", "config_version_key", "add_migration"] (.vstr "1.0.3") none
  (some [(.vstr "1.0.2", .vstr "1.0.3", 2), (.vstr "1.0.1", .vstr "1.0.2", 1),
         (.vstr "1.0.0", .vstr "1.0.1", 0)])

/-- The old-version tree of the spec's §8 example. -/
def chainTree : Tree :=
  [(.vstr "config_version", .vstr "1.0.0"), (.vstr "a", .vint 66), (.vstr "c", .vint 14134)]

/-- A versioned object whose single registered migration (index 3) returns a
freshly built mapping `{"a": 5}` without mutating its argument. -/
def freshObj : Obj := .mk "C"
  [("a", .vint 0)] ["VERSION"] (.vstr "2") none (some [(.vstr "1", .vstr "2", 3)])

/-- An unversioned object with a field literally named `config_version`
(the repository's `test_unversioned_config_version_paramname_allowed` shape). -/
def cvFieldObj : Obj := .mk "TestConfigClass"
  [("config_version", .vint 222), ("a", .vint 1)] ["VERSION"] .vnone none none

/-- A versioned object with no migrations registered (the `_migrations`
attribute absent), as in `test_versioned_config_no_migrations_available`. -/
def noMigObj : Obj := .mk "VC1" [("var1", .vint 11)] ["VERSION"] (.vstr "1.0.1") none none

/-- An object whose class carries a method `custom_method1` that is not an
instance field. -/
def methodObj : Obj := .mk "C1"
  [("v", .vint 1)] ["custom_method1", "VERSION", "load", "config_version_key"] .vnone none none

/-- A versioned object whose *first* field is named `config_version` — the
reserved-name conflict — followed by an ordinary field `b`. -/
def conflictObj : Obj := .mk "VC1"
  [("config_version", .vint 1), ("b", .vint 2)] ["VERSION"] (.vstr "9.9.9") none none

/-- The same fields on an unversioned object. -/
def conflictObjUnversioned : Obj := .mk "VC1"
  [("config_version", .vint 1), ("b", .vint 2)] ["VERSION"] .vnone none none

/-- An object whose field `a` currently holds `None` — a legal instance
variable that is neither a config object nor a serializable builtin. -/
def noneFieldObj : Obj := .mk "C" [("a", .vnone)] ["VERSION"] .vnone none none

/-- An object whose field `a` holds a list containing a non-serializable
element (`object()`). -/
def badListObj : Obj := .mk "C"
  [("a", .vlist [.vother "object" false])] ["VERSION"] .vnone none none

/-- An object whose field `a` currently holds the integer 7. -/
def intFieldObj : Obj := .mk "C" [("a", .vint 7)] ["VERSION"] .vnone none none

/-! # Theorems

General lemmas about the embedded operations, then one theorem (plus
counterexample/witness where applicable) per claim. -/

theorem withFields_self (o : Obj) : o.withFields o.fields = o := by
  cases o
  rfl

theorem vbeq_vstr (a b : String) : vbeq (.vstr a) (.vstr b) = (a == b) := by
  simp [vbeq]

theorem dictGet_some_hasKey {k : Value} :
    ∀ {t : Tree} {v : Value}, dictGet k t = some v → dictHasKey k t = true
  | (a, _) :: rest, v, h => by
    by_cases hvk : vbeq a k = true
    · simp [dictHasKey, hvk]
    · simp only [dictGet, hvk, Bool.false_eq_true, if_false] at h
      have := dictGet_some_hasKey h
      simp only [dictHasKey, List.any_cons] at this ⊢
      simp [this]

theorem dictGet_dictDel_self (k : Value) (t : Tree) :
    dictGet k (dictDel k t) = none := by
  induction t with
  | nil => rfl
  | cons p rest ih =>
    by_cases hk : vbeq p.1 k = true
    · simpa [dictDel, hk] using ih
    · simpa [dictDel, dictGet, hk] using ih

theorem dictGet_none_map_update {k k' v' : Value} :
    ∀ {t : Tree}, dictGet k t = none →
      dictGet k (t.map (fun p => if vbeq p.1 k' then (p.1, v') else p)) = none
  | [], _ => rfl
  | (a, b) :: rest, h => by
    by_cases hpk : vbeq a k = true
    · simp [dictGet, hpk] at h
    · by_cases hpk' : vbeq a k' = true
      · simp only [dictGet, hpk, Bool.false_eq_true, if_false] at h
        simp only [List.map_cons, hpk', if_true]
        simp only [dictGet, hpk, Bool.false_eq_true, if_false]
        exact dictGet_none_map_update h
      · simp only [dictGet, hpk, Bool.false_eq_true, if_false] at h
        simp only [List.map_cons, hpk', Bool.false_eq_true, if_false]
        simp only [dictGet, hpk, Bool.false_eq_true, if_false]
        exact dictGet_none_map_update h

theorem dictGet_none_dictSet {k k' v' : Value} {t : Tree}
    (hk : dictHasKey k' t = true) (h : dictGet k t = none) :
    dictGet k (dictSet k' v' t) = none := by
  simp only [dictSet, hk, if_true]
  exact dictGet_none_map_update h

/-- The population loop never adds a key to the caller's tree: its tree
updates only rewrite, in place, keys that are already present. -/
theorem popLoop_key_none (env : MigEnv) (o : Obj) :
    ∀ (ks : List Value) (fs : List (String × Value)) (t : Tree) (k : Value),
      dictGet k t = none → dictGet k (popLoop env o fs t ks).2.1 = none := by
  intro ks
  induction ks with
  | nil =>
    intro fs t k h
    simpa [popLoop] using h
  | cons kv ks ih =>
    intro fs t k h
    cases kv
    case vstr n =>
      rw [popLoop.eq_2]
      split
      · simpa using h
      · simpa using h
      · split
        · simpa using h
        · split
          · split
            · rename_i child heq1 x sub heq
              have habs := @dictGet_none_dictSet k (.vstr n)
                (.vdict (fromJsonObj env child sub).2.1) t (dictGet_some_hasKey heq) h
              simp only []
              cases herr : (fromJsonObj env child sub).2.2 with
              | some e => simpa [herr] using habs
              | none => simpa [herr] using ih _ _ _ habs
            · simpa using h
            · simpa using h
          · split
            · split
              · exact ih _ _ _ h
              · simpa using h
            · simpa using h
    all_goals
      rw [popLoop.eq_3 _ _ _ _ _ _ (by intro m hm; exact Value.noConfusion hm)]
      simpa using h

/-- The version bookkeeping of the single `for m in self._migrations` pass
does not depend on the trees at all. -/
theorem migLoop_version (env : MigEnv) :
    ∀ (migs : List (Value × Value × Nat)) (orig : Tree) (cur : Option Tree) (v : Value),
      (migLoop env migs orig cur v).2.2 = passVersion migs v := by
  intro migs
  induction migs with
  | nil => intro orig cur v; rfl
  | cons s rest ih =>
    intro orig cur v
    obtain ⟨f, tv, fid⟩ := s
    by_cases hf : vbeq f v = true
    · cases cur with
      | none =>
        cases hr : (env fid).retFresh orig <;>
          simp [migLoop, passVersion, hf, hr, ih]
      | some c =>
        cases hr : (env fid).retFresh c <;>
          simp [migLoop, passVersion, hf, hr, ih]
    · simp [migLoop, passVersion, hf, ih]

/-- When every registered transform returns its own (mutated) argument — as
all the repository's tests do — the single pass keeps the local `attrs`
aliasing the caller's dict, and the caller's dict ends up holding exactly the
chained composition `passTree` of the in-place mutations. -/
theorem migLoop_all_in_place (env : MigEnv) :
    ∀ (migs : List (Value × Value × Nat)) (t : Tree) (v : Value),
      (∀ fv tv fid, (fv, tv, fid) ∈ migs → ∀ tr, (env fid).retFresh tr = none) →
      migLoop env migs t none v = (passTree env migs t v, none, passVersion migs v) := by
  intro migs
  induction migs with
  | nil => intro t v _; rfl
  | cons s rest ih =>
    intro t v hall
    obtain ⟨f, tv, fid⟩ := s
    have hrest : ∀ fv tv' fid', (fv, tv', fid') ∈ rest →
        ∀ tr, (env fid').retFresh tr = none := by
      intro fv tv' fid' hmem tr
      exact hall fv tv' fid' (List.mem_cons_of_mem _ hmem) tr
    by_cases hf : vbeq f v = true
    · have hr := hall f tv fid (List.mem_cons_self _ _) t
      simp [migLoop, passTree, passVersion, hf, hr, ih _ _ hrest]
    · simp [migLoop, passTree, passVersion, hf, ih _ _ hrest]

/-- A connected, registration-ordered chain walks all the way to the target. -/
theorem chainedFrom_passVersion :
    ∀ (migs : List (Value × Value × Nat)) (v target : Value),
      chainedFrom migs v target → vbeq (passVersion migs v) target = true := by
  intro migs
  induction migs with
  | nil => intro v target h; exact h
  | cons s rest ih =>
    intro v target h
    obtain ⟨f, tv, fid⟩ := s
    obtain ⟨hf, hrest⟩ := h
    simp only [passVersion, hf, if_true]
    exact ih tv target hrest

/-! ## Claim C1 -/

/-- C1 (counterexample).  The three §8 chain steps form a connected path
`1.0.0 → 1.0.1 → 1.0.2 → 1.0.3` in both `chainObj` (registered in path order)
and `chainObjRev` (the same step set registered in reverse).  Resolution
succeeds for the former and fails for the latter: the walk is a single pass
over the steps in registration order, not a repeated search, so success does
depend on the order in which the steps were registered. -/
theorem c1_counterexample :
    (fromJsonObj cEnv chainObj chainTree).2.2 = none
    ∧ (fromJsonObj cEnv chainObjRev chainTree).2.2 =
        some (.migrationFailed "VC1" (.vstr "1.0.0") (.vstr "1.0.3")) := by
  constructor <;>
    simp [fromJsonObj, popLoop, chainObj, chainObjRev, chainTree, cEnv,
      configVersionKey, dictGet, dictKeys, dictKeysAux, dictDel, dictSet, dictHasKey,
      vbeq, migrateModel, migLoop, isInstanceVar, hasattrB, fieldsGet, fieldsSet,
      isCallableV, isSerializableBuiltin, underscoredName, valueClassName,
      Obj.fields, Obj.verKeyOverride, Obj.classAttrs, Obj.version, Obj.migrations,
      Obj.className, Obj.withFields]

/-- C1 (amended).  `_migrate` makes a *single pass* over the registered steps
in registration order, applying each step whose `from_version` equals the
current version; it succeeds exactly when the version reached by that pass
equals the target.  In particular a connected path whose steps are registered
in path order always succeeds — but, as the counterexample shows, not every
registration order of a connected path does. -/
theorem c1_single_pass_resolution (env : MigEnv) (o : Obj) (t : Tree)
    (oldV : Value) (migs : List (Value × Value × Nat))
    (hm : o.migrations = some migs) :
    ((migrateModel env o t oldV).2 = none ↔
       vbeq (passVersion migs oldV) o.version = true)
    ∧ (chainedFrom migs oldV o.version → (migrateModel env o t oldV).2 = none) := by
  have hv : (migLoop env migs t none oldV).2.2 = passVersion migs oldV :=
    migLoop_version env migs t none oldV
  have main : (migrateModel env o t oldV).2 = none ↔
      vbeq (passVersion migs oldV) o.version = true := by
    rw [migrateModel, hm]
    simp only [hv]
    by_cases hb : vbeq (passVersion migs oldV) o.version = true
    · simp [hb]
    · simp [hb]
  exact ⟨main, fun hch => main.2 (chainedFrom_passVersion migs oldV o.version hch)⟩

/-- Witness for C1's amended theorem at the in-order chain object. -/
theorem c1_witness :
    ((migrateModel cEnv chainObj chainTree (.vstr "1.0.0")).2 = none ↔
       vbeq (passVersion [(.vstr "1.0.0", .vstr "1.0.1", 0), (.vstr "1.0.1", .vstr "1.0.2", 1),
         (.vstr "1.0.2", .vstr "1.0.3", 2)] (.vstr "1.0.0")) chainObj.version = true)
    ∧ (chainedFrom [(.vstr "1.0.0", .vstr "1.0.1", 0), (.vstr "1.0.1", .vstr "1.0.2", 1),
         (.vstr "1.0.2", .vstr "1.0.3", 2)] (.vstr "1.0.0") chainObj.version →
       (migrateModel cEnv chainObj chainTree (.vstr "1.0.0")).2 = none) :=
  c1_single_pass_resolution cEnv chainObj chainTree (.vstr "1.0.0") _ rfl

/-! ## Claim C2 -/

/-- C2 (counterexample).  `freshObj`'s only migration returns the freshly
built mapping `{"a": 5}` without mutating its argument.  The claim says field
population uses that returned tree (so `a` would become 5); in fact the
returned tree is discarded — `_migrate` returns `None` — and population uses
the caller's mapping, so `a` becomes 1. -/
theorem c2_counterexample :
    (fromJsonObj cEnv freshObj
        [(.vstr "config_version", .vstr "1"), (.vstr "a", .vint 1)]).1.fields =
      [("a", .vint 1)]
    ∧ (cEnv 3).retFresh [(.vstr "config_version", .vstr "1"), (.vstr "a", .vint 1)] =
        some [(.vstr "a", .vint 5)]
    ∧ (fromJsonObj cEnv freshObj
        [(.vstr "config_version", .vstr "1"), (.vstr "a", .vint 1)]).2.2 = none := by
  refine ⟨?_, rfl, ?_⟩ <;>
    simp [fromJsonObj, popLoop, freshObj, cEnv, configVersionKey, dictGet, dictKeys,
      dictKeysAux, dictDel, dictSet, dictHasKey, vbeq, migrateModel, migLoop,
      isInstanceVar, hasattrB, fieldsGet, fieldsSet, isCallableV, isSerializableBuiltin,
      underscoredName, Obj.fields, Obj.verKeyOverride, Obj.classAttrs, Obj.version,
      Obj.migrations, Obj.withFields]

/-- C2 (amended).  Each applied step's transform receives the tree left by the
previous step; but `_migrate` discards the returned trees and
`from_json_serializable` populates fields from the caller's mapping as mutated
in place.  When every registered transform returns its own mutated argument,
that mapping is exactly the chained composition `passTree` — the final
transform's output — and population runs on it (minus the version key). -/
theorem c2_population_uses_caller_mapping (env : MigEnv) (o : Obj) (t : Tree)
    (v : Value) (migs : List (Value × Value × Nat))
    (hk : dictGet (.vstr (configVersionKey o)) t = some v)
    (hv : vbeq v o.version = false)
    (hm : o.migrations = some migs)
    (hall : ∀ fv tv fid, (fv, tv, fid) ∈ migs → ∀ tr, (env fid).retFresh tr = none)
    (hsucc : vbeq (passVersion migs v) o.version = true)
    (hpres : dictHasKey (.vstr (configVersionKey o)) (passTree env migs t v) = true) :
    fromJsonObj env o t =
      popLoop env o o.fields
        (dictDel (.vstr (configVersionKey o)) (passTree env migs t v))
        (dictKeys (dictDel (.vstr (configVersionKey o)) (passTree env migs t v))) := by
  have hmig : migrateModel env o t v = (passTree env migs t v, none) := by
    rw [migrateModel, hm]
    simp only [migLoop_all_in_place env migs t v hall, hsucc, if_true]
  rw [fromJsonObj]
  simp only [hk, hv, Bool.false_eq_true, if_false, hmig, hpres, if_true]

/-- Witness for C2's amended theorem at the in-order chain object: all three
transforms mutate in place, and population consumes their composed output. -/
theorem c2_witness :
    fromJsonObj cEnv chainObj chainTree =
      popLoop cEnv chainObj chainObj.fields
        (dictDel (.vstr (configVersionKey chainObj))
          (passTree cEnv [(.vstr "1.0.0", .vstr "1.0.1", 0), (.vstr "1.0.1", .vstr "1.0.2", 1),
            (.vstr "1.0.2", .vstr "1.0.3", 2)] chainTree (.vstr "1.0.0")))
        (dictKeys (dictDel (.vstr (configVersionKey chainObj))
          (passTree cEnv [(.vstr "1.0.0", .vstr "1.0.1", 0), (.vstr "1.0.1", .vstr "1.0.2", 1),
            (.vstr "1.0.2", .vstr "1.0.3", 2)] chainTree (.vstr "1.0.0")))) :=
  c2_population_uses_caller_mapping cEnv chainObj chainTree (.vstr "1.0.0") _
    (by simp [configVersionKey, chainObj, chainTree, Obj.verKeyOverride, dictGet, vbeq])
    (by simp [vbeq, chainObj, Obj.version])
    rfl
    (by
      intro fv tv fid hmem tr
      simp only [List.mem_cons, List.not_mem_nil, or_false] at hmem
      rcases hmem with h | h | h <;>
        · injection h with h₁ h₂
          injection h₂ with h₂ h₃
          subst h₃
          rfl)
    (by simp [passVersion, vbeq, chainObj, Obj.version])
    (by simp [passTree, cEnv, chainTree, configVersionKey, chainObj, Obj.verKeyOverride,
      dictSet, dictDel, dictHasKey, vbeq])

/-! ## Claim C3 -/

theorem Obj.withFields_fields (o : Obj) (f : List (String × Value)) :
    (o.withFields f).fields = f := by
  cases o
  rfl

theorem builtin_not_callable {v : Value} (h : isSerializableBuiltin v = true) :
    isCallableV v = false := by
  cases v <;> simp_all [isSerializableBuiltin, isCallableV]

theorem fieldsGet_map_setkey_self {n : String} (v : Value) :
    ∀ fs : List (String × Value), (fs.any fun q => q.1 == n) = true →
      fieldsGet n (fs.map fun q => if (q.1 == n) = true then (q.1, v) else q) = some v
  | p :: rest, h => by
    by_cases hp : (p.1 == n) = true
    · simp only [List.map_cons, hp, if_true]
      simp [fieldsGet, hp]
    · simp only [List.any_cons, hp, Bool.false_or] at h
      simp only [List.map_cons, hp, Bool.false_eq_true, if_false]
      simp only [fieldsGet, hp, Bool.false_eq_true, if_false]
      exact fieldsGet_map_setkey_self v rest h

theorem fieldsGet_map_setkey_ne {m n : String} (hne : m ≠ n) (v : Value) :
    ∀ fs : List (String × Value),
      fieldsGet m (fs.map fun q => if (q.1 == n) = true then (q.1, v) else q) =
        fieldsGet m fs
  | [] => rfl
  | p :: rest => by
    by_cases hp : (p.1 == n) = true
    · have hpm : (p.1 == m) = false := by
        have h1 : p.1 = n := by simpa using hp
        rw [h1]
        simp only [beq_eq_false_iff_ne]
        exact Ne.symm hne
      simp only [List.map_cons, hp, if_true]
      simp only [fieldsGet, hpm, Bool.false_eq_true, if_false]
      exact fieldsGet_map_setkey_ne hne v rest
    · simp only [List.map_cons, hp, Bool.false_eq_true, if_false]
      by_cases hpm : (p.1 == m) = true
      · simp [fieldsGet, hpm]
      · simp only [fieldsGet, hpm, Bool.false_eq_true, if_false]
        exact fieldsGet_map_setkey_ne hne v rest

theorem fieldsGet_append_self {n : String} (v : Value) :
    ∀ fs : List (String × Value), (fs.any fun q => q.1 == n) = false →
      fieldsGet n (fs ++ [(n, v)]) = some v
  | [], _ => by simp [fieldsGet]
  | p :: rest, h => by
    simp only [List.any_cons, Bool.or_eq_false_iff] at h
    simp only [List.cons_append, fieldsGet, h.1, Bool.false_eq_true, if_false]
    exact fieldsGet_append_self v rest h.2

theorem fieldsGet_append_ne {m n : String} (hne : m ≠ n) (v : Value) :
    ∀ fs : List (String × Value), fieldsGet m (fs ++ [(n, v)]) = fieldsGet m fs
  | [] => by
    have hnm : (n == m) = false := by
      simp only [beq_eq_false_iff_ne]
      exact Ne.symm hne
    simp [fieldsGet, hnm]
  | p :: rest => by
    by_cases hpm : (p.1 == m) = true
    · simp [fieldsGet, hpm]
    · simp only [List.cons_append, fieldsGet, hpm, Bool.false_eq_true, if_false]
      exact fieldsGet_append_ne hne v rest

theorem fieldsGet_fieldsSet_self (n : String) (v : Value)
    (fs : List (String × Value)) : fieldsGet n (fieldsSet n v fs) = some v := by
  rw [fieldsSet]
  by_cases hk : (fs.any fun p => p.1 == n) = true
  · simp only [hk, if_true]
    exact fieldsGet_map_setkey_self v fs hk
  · simp only [hk, Bool.false_eq_true, if_false]
    refine fieldsGet_append_self v fs ?_
    simp only [Bool.not_eq_true] at hk
    exact hk

theorem fieldsGet_fieldsSet_ne {m n : String} (hne : m ≠ n) (v : Value)
    (fs : List (String × Value)) : fieldsGet m (fieldsSet n v fs) = fieldsGet m fs := by
  rw [fieldsSet]
  by_cases hk : (fs.any fun p => p.1 == n) = true
  · simp only [hk, if_true]
    exact fieldsGet_map_setkey_ne hne v fs
  · simp only [hk, Bool.false_eq_true, if_false]
    exact fieldsGet_append_ne hne v fs

theorem fieldsGet_is_some_of_mem {n : String} :
    ∀ {fs : List (String × Value)}, n ∈ fs.map Prod.fst → ∃ v, fieldsGet n fs = some v := by
  intro fs
  induction fs with
  | nil => intro h; simp at h
  | cons p rest ih =>
    intro h
    simp only [List.map_cons, List.mem_cons] at h
    by_cases hp : (p.1 == n) = true
    · exact ⟨p.2, by simp [fieldsGet, hp]⟩
    · have : n ∈ rest.map Prod.fst := by
        rcases h with h₁ | h₁
        · exact absurd (by simp [h₁] : (p.1 == n) = true) hp
        · exact h₁
      obtain ⟨v, hv⟩ := ih this
      exact ⟨v, by simp [fieldsGet, hp, hv]⟩

theorem fieldsGet_mem {n : String} {v : Value} :
    ∀ {fs : List (String × Value)}, fieldsGet n fs = some v → (n, v) ∈ fs := by
  intro fs
  induction fs with
  | nil => intro h; simp [fieldsGet] at h
  | cons p rest ih =>
    intro h
    by_cases hp : (p.1 == n) = true
    · simp only [fieldsGet, hp, if_true] at h
      have h1 : p.1 = n := by simpa using hp
      have : p = (n, v) := by
        cases p
        simp_all
      simp [this]
    · simp only [fieldsGet, hp, Bool.false_eq_true, if_false] at h
      exact List.mem_cons_of_mem _ (ih h)


theorem dictGet_map_eq_fieldsGet (n : String) :
    ∀ xs : List (String × Value),
      dictGet (.vstr n) (xs.map fun p => (Value.vstr p.1, p.2)) = fieldsGet n xs
  | [] => rfl
  | p :: rest => by
    simp only [List.map_cons, dictGet, fieldsGet, vbeq_vstr]
    by_cases hp : (p.1 == n) = true
    · simp [hp]
    · simp only [hp, Bool.false_eq_true, if_false]
      exact dictGet_map_eq_fieldsGet n rest

theorem serFields_all_builtin :
    ∀ (xs : List (String × Value)) (acc : Tree),
      (∀ p ∈ xs, underscoredName p.1 = false ∧ isSerializableBuiltin p.2 = true) →
      (∀ p ∈ xs, dictHasKey (.vstr p.1) acc = false) →
      (xs.map Prod.fst).Nodup →
      serFields xs acc = (.ok (acc ++ xs.map fun p => (Value.vstr p.1, p.2)), xs) := by
  intro xs
  induction xs with
  | nil => intro acc _ _ _; simp [serFields]
  | cons p rest ih =>
    intro acc hb hacc hnd
    obtain ⟨n, v⟩ := p
    obtain ⟨hund, hbuiltin⟩ := hb _ (List.mem_cons_self _ _)
    have hpub : isPublicField n v = true := by
      simp [isPublicField, builtin_not_callable hbuiltin, hund]
    have hset : dictSet (.vstr n) v acc = acc ++ [(Value.vstr n, v)] := by
      rw [dictSet, hacc _ (List.mem_cons_self _ _)]
      simp
    have hnotin : n ∉ rest.map Prod.fst := by
      simp only [List.map_cons, List.nodup_cons] at hnd
      exact hnd.1
    have hrest : serFields rest (acc ++ [(Value.vstr n, v)]) =
        (.ok ((acc ++ [(Value.vstr n, v)]) ++ rest.map fun p => (Value.vstr p.1, p.2)),
          rest) := by
      refine ih _ (fun q hq => hb q (List.mem_cons_of_mem _ hq)) ?_ ?_
      · intro q hq
        have h₁ := hacc q (List.mem_cons_of_mem _ hq)
        have hqn : (n == q.1) = false := by
          simp only [beq_eq_false_iff_ne]
          intro hEq
          exact hnotin (hEq ▸ List.mem_map_of_mem Prod.fst hq)
        simp only [dictHasKey, List.any_append, List.any_cons, List.any_nil,
          Bool.or_false, vbeq_vstr, hqn] at h₁ ⊢
        simp [h₁]
      · simp only [List.map_cons, List.nodup_cons] at hnd
        exact hnd.2
    cases v with
    | vobj child => simp [isSerializableBuiltin] at hbuiltin
    | vnone => simp [isSerializableBuiltin] at hbuiltin
    | vother c b => simp [isSerializableBuiltin] at hbuiltin
    | vint i =>
      simp only [serFields, hpub, if_true, hset, hrest]
      simp [isSerializableBuiltin]
    | vfloat x =>
      simp only [serFields, hpub, if_true, hset, hrest]
      simp [isSerializableBuiltin]
    | vbool b =>
      simp only [serFields, hpub, if_true, hset, hrest]
      simp [isSerializableBuiltin]
    | vstr s =>
      simp only [serFields, hpub, if_true, hset, hrest]
      simp [isSerializableBuiltin]
    | vlist l =>
      simp only [serFields, hpub, if_true, hset, hrest]
      simp [isSerializableBuiltin]
    | vdict d =>
      simp only [serFields, hpub, if_true, hset, hrest]
      simp [isSerializableBuiltin]


theorem dictKeysAux_map :
    ∀ (xs : List (String × Value)) (acc : List Value),
      (xs.map Prod.fst).Nodup →
      (∀ p ∈ xs, (acc.any (vbeq (Value.vstr p.1) ·)) = false) →
      dictKeysAux (xs.map fun p => (Value.vstr p.1, p.2)) acc =
        acc.reverse ++ xs.map fun p => Value.vstr p.1
  | [], acc, _, _ => by simp [dictKeysAux]
  | p :: rest, acc, hnd, hacc => by
    obtain ⟨n, v⟩ := p
    have hthis := hacc _ (List.mem_cons_self _ _)
    simp only [List.map_cons, dictKeysAux, hthis, Bool.false_eq_true, if_false]
    have hnotin : n ∉ rest.map Prod.fst := by
      simp only [List.map_cons, List.nodup_cons] at hnd
      exact hnd.1
    have hrec := dictKeysAux_map rest (Value.vstr n :: acc)
      (by simp only [List.map_cons, List.nodup_cons] at hnd; exact hnd.2)
      (by
        intro q hq
        simp only [List.any_cons, Bool.or_eq_false_iff]
        constructor
        · simp only [vbeq_vstr, beq_eq_false_iff_ne]
          intro hEq
          exact hnotin (hEq ▸ List.mem_map_of_mem Prod.fst hq)
        · exact hacc q (List.mem_cons_of_mem _ hq))
    rw [hrec]
    simp

theorem dictKeys_map (xs : List (String × Value))
    (hnd : (xs.map Prod.fst).Nodup) :
    dictKeys (xs.map fun p => (Value.vstr p.1, p.2)) = xs.map fun p => Value.vstr p.1 := by
  have := dictKeysAux_map xs [] hnd (by intro p _; rfl)
  simpa [dictKeys] using this


theorem popLoop_builtin (env : MigEnv) (o : Obj) :
    ∀ (names : List String) (fs : List (String × Value)) (t : Tree),
      (∀ n ∈ names,
        hasattrB o n = true ∧ underscoredName n = false ∧
        (∃ cur, fieldsGet n o.fields = some cur ∧ isSerializableBuiltin cur = true) ∧
        (∃ v, dictGet (.vstr n) t = some v)) →
      (popLoop env o fs t (names.map Value.vstr)).2.2 = none ∧
      (popLoop env o fs t (names.map Value.vstr)).2.1 = t ∧
      (∀ m, m ∈ names →
        fieldsGet m (popLoop env o fs t (names.map Value.vstr)).1.fields =
          dictGet (.vstr m) t) ∧
      (∀ m, m ∉ names →
        fieldsGet m (popLoop env o fs t (names.map Value.vstr)).1.fields =
          fieldsGet m fs) := by
  intro names
  induction names with
  | nil =>
    intro fs t _
    refine ⟨by simp [popLoop], by simp [popLoop], ?_, ?_⟩
    · intro m hm
      simp at hm
    · intro m _
      simp [popLoop, Obj.withFields_fields]
  | cons n names' ih =>
    intro fs t hyp
    obtain ⟨hha, hund, ⟨cur, hg, hb⟩, ⟨v, htv⟩⟩ := hyp n (List.mem_cons_self _ _)
    have hiv : isInstanceVar o n = .ok true := by
      simp [isInstanceVar, hha, hg, builtin_not_callable hb, hund]
    have hstep : popLoop env o fs t ((n :: names').map Value.vstr) =
        popLoop env o (fieldsSet n v fs) t (names'.map Value.vstr) := by
      rw [List.map_cons, popLoop.eq_2]
      simp only [hiv]
      split
      · rename_i heq
        rw [hg] at heq
        exact Option.noConfusion heq
      · rename_i cur' heq
        rw [hg] at heq
        injection heq with h₂
        subst h₂
        cases cur with
        | vobj ch => simp [isSerializableBuiltin] at hb
        | vnone => simp [isSerializableBuiltin] at hb
        | vother c b => simp [isSerializableBuiltin] at hb
        | vint i => simp only [hb, if_true, htv]
        | vfloat x => simp only [hb, if_true, htv]
        | vbool b => simp only [hb, if_true, htv]
        | vstr s => simp only [hb, if_true, htv]
        | vlist xs => simp only [hb, if_true, htv]
        | vdict d => simp only [hb, if_true, htv]
    have hrest := ih (fieldsSet n v fs) t
      (fun q hq => hyp q (List.mem_cons_of_mem _ hq))
    refine ⟨by rw [hstep]; exact hrest.1, by rw [hstep]; exact hrest.2.1, ?_, ?_⟩
    · intro m hm
      rw [hstep]
      by_cases hmem : m ∈ names'
      · exact hrest.2.2.1 m hmem
      · have hmn : m = n := by
          rcases List.mem_cons.mp hm with h | h
          · exact h
          · exact absurd h hmem
        subst hmn
        rw [hrest.2.2.2 m hmem, fieldsGet_fieldsSet_self, htv]
    · intro m hm
      rw [hstep]
      have hmn : m ≠ n := fun h => hm (h ▸ List.mem_cons_self _ _)
      have hmem : m ∉ names' := fun h => hm (List.mem_cons_of_mem _ h)
      rw [hrest.2.2.2 m hmem, fieldsGet_fieldsSet_ne hmn]


theorem fieldsGet_eq_none_of_not_mem {n : String} :
    ∀ {fs : List (String × Value)}, n ∉ fs.map Prod.fst → fieldsGet n fs = none := by
  intro fs
  induction fs with
  | nil => intro _; rfl
  | cons p rest ih =>
    intro h
    simp only [List.map_cons, List.mem_cons, not_or] at h
    have hp : (p.1 == n) = false := by
      simp only [beq_eq_false_iff_ne]
      exact fun hEq => h.1 (hEq ▸ rfl)
    simp only [fieldsGet, hp, Bool.false_eq_true, if_false]
    exact ih h.2

theorem any_beq_of_mem {n : String} :
    ∀ {fs : List (String × Value)}, n ∈ fs.map Prod.fst →
      (fs.any fun p => p.1 == n) = true := by
  intro fs
  induction fs with
  | nil => intro h; simp at h
  | cons p rest ih =>
    intro h
    simp only [List.map_cons, List.mem_cons] at h
    simp only [List.any_cons, Bool.or_eq_true]
    rcases h with h | h
    · exact Or.inl (by simp [h])
    · exact Or.inr (ih h)

/-- C3 (amended).  For an unversioned object `x` whose public fields all hold
serializable-builtin values, with *no field named with the active version key*
`"config_version"`, serializing `x` and deserializing the result into a
freshly-constructed default instance `y` of the same class (same field names,
builtin default values, default version-key) succeeds and reproduces `x`'s
field values exactly, for every legal public field name. -/
theorem c3_roundtrip_without_version_named_field (env : MigEnv) (x y : Obj)
    (hxv : x.version = .vnone) (hyv : y.version = .vnone)
    (hyk : y.verKeyOverride = none)
    (hx : ∀ p ∈ x.fields, underscoredName p.1 = false ∧ isSerializableBuiltin p.2 = true)
    (hy : ∀ p ∈ y.fields, isSerializableBuiltin p.2 = true)
    (hnames : y.fields.map Prod.fst = x.fields.map Prod.fst)
    (hnd : (x.fields.map Prod.fst).Nodup)
    (hnk : "config_version" ∉ x.fields.map Prod.fst) :
    (serObj x).1 = .ok (x.fields.map fun p => (Value.vstr p.1, p.2))
    ∧ (fromJsonObj env y (x.fields.map fun p => (Value.vstr p.1, p.2))).2.2 = none
    ∧ ∀ n ∈ x.fields.map Prod.fst,
        fieldsGet n (fromJsonObj env y
            (x.fields.map fun p => (Value.vstr p.1, p.2))).1.fields =
          fieldsGet n x.fields := by
  have hser : (serObj x).1 = .ok (x.fields.map fun p => (Value.vstr p.1, p.2)) := by
    obtain ⟨c, f, a, v, k, m⟩ := x
    simp only [Obj.fields] at hx hnd ⊢
    simp only [Obj.version] at hxv
    subst hxv
    have hserf := serFields_all_builtin f [] hx (by intro p _; rfl) hnd
    rw [serObj]
    simp only [hserf]
    simp [vbeq]
  have hkey : configVersionKey y = "config_version" := by
    simp [configVersionKey, hyk]
  have hknone : dictGet (.vstr "config_version")
      (x.fields.map fun p => (Value.vstr p.1, p.2)) = none := by
    rw [dictGet_map_eq_fieldsGet]
    exact fieldsGet_eq_none_of_not_mem hnk
  have hpop : fromJsonObj env y (x.fields.map fun p => (Value.vstr p.1, p.2)) =
      popLoop env y y.fields (x.fields.map fun p => (Value.vstr p.1, p.2))
        (dictKeys (x.fields.map fun p => (Value.vstr p.1, p.2))) := by
    rw [fromJsonObj, hkey, hknone]
  have hkeys : dictKeys (x.fields.map fun p => (Value.vstr p.1, p.2)) =
      (x.fields.map Prod.fst).map Value.vstr := by
    rw [dictKeys_map _ hnd, List.map_map]
    rfl
  have hloop := popLoop_builtin env y (x.fields.map Prod.fst) y.fields
    (x.fields.map fun p => (Value.vstr p.1, p.2))
    (by
      intro n hn
      obtain ⟨xv, hxv'⟩ := fieldsGet_is_some_of_mem hn
      have hxmem := fieldsGet_mem hxv'
      obtain ⟨hund, _⟩ := hx _ hxmem
      obtain ⟨yv, hyv'⟩ := fieldsGet_is_some_of_mem (show n ∈ y.fields.map Prod.fst from hnames ▸ hn)
      have hymem := fieldsGet_mem hyv'
      refine ⟨?_, hund, ⟨yv, hyv', hy _ hymem⟩, ⟨xv, ?_⟩⟩
      · simp only [hasattrB, Bool.or_eq_true]
        exact Or.inl (any_beq_of_mem (hnames ▸ hn))
      · rw [dictGet_map_eq_fieldsGet]
        exact hxv')
  refine ⟨hser, ?_, ?_⟩
  · rw [hpop, hkeys]
    exact hloop.1
  · intro n hn
    rw [hpop, hkeys, hloop.2.2.1 n hn, dictGet_map_eq_fieldsGet]


/-- C3 (counterexample).  An unversioned object with a field literally named
`config_version` serializes fine, but deserializing the serialized tree back
into a fresh default instance of the same class does *not* reproduce the
field values: the mere presence of the `config_version` key makes
`from_json_serializable` treat the tree as versioned data, compare the value
222 against the class version `None`, attempt a migration, and raise
`VersionedConfigMigrationError`, leaving every field untouched. -/
theorem c3_counterexample :
    (serObj cvFieldObj).1 =
      .ok [(.vstr "config_version", .vint 222), (.vstr "a", .vint 1)]
    ∧ (fromJsonObj cEnv cvFieldObj
        [(.vstr "config_version", .vint 222), (.vstr "a", .vint 1)]).2.2 =
      some (.migrationFailed "TestConfigClass" (.vint 222) .vnone)
    ∧ (fromJsonObj cEnv cvFieldObj
        [(.vstr "config_version", .vint 222), (.vstr "a", .vint 1)]).1 = cvFieldObj := by
  refine ⟨?_, ?_, ?_⟩ <;>
    simp [serObj, serFields, fromJsonObj, cvFieldObj, configVersionKey, dictGet,
      dictSet, dictHasKey, vbeq, migrateModel, isPublicField, isCallableV,
      underscoredName, isSerializableBuiltin,
      Obj.fields, Obj.verKeyOverride, Obj.classAttrs, Obj.version, Obj.migrations,
      Obj.className]

/-- Witness for C3's amended theorem at a one-field object. -/
theorem c3_witness :
    (serObj intFieldObj).1 =
      .ok (intFieldObj.fields.map fun p => (Value.vstr p.1, p.2))
    ∧ (fromJsonObj cEnv intFieldObj
        (intFieldObj.fields.map fun p => (Value.vstr p.1, p.2))).2.2 = none
    ∧ ∀ n ∈ intFieldObj.fields.map Prod.fst,
        fieldsGet n (fromJsonObj cEnv intFieldObj
            (intFieldObj.fields.map fun p => (Value.vstr p.1, p.2))).1.fields =
          fieldsGet n intFieldObj.fields :=
  c3_roundtrip_without_version_named_field cEnv intFieldObj intFieldObj
    rfl rfl rfl
    (by
      intro p hp
      simp only [intFieldObj, Obj.fields, List.mem_singleton] at hp
      subst hp
      exact ⟨rfl, rfl⟩)
    (by
      intro p hp
      simp only [intFieldObj, Obj.fields, List.mem_singleton] at hp
      subst hp
      rfl)
    rfl
    (by simp [intFieldObj, Obj.fields])
    (by simp [intFieldObj, Obj.fields])

/-! ## Claim C4 -/

/-- C4 (confirmed).  If the incoming tree carries the version key with a value
different from the object's version and the migration fails, then
`from_json_serializable` propagates the `VersionedConfigMigrationError` and
returns the object exactly as it was: no field assignment happens before the
chain resolution completes.  This also covers the zero-registered-steps case
(`o.migrations = none` makes `migrateModel` fail for every version pair). -/
theorem c4_failed_migration_leaves_fields_untouched (env : MigEnv) (o : Obj)
    (t t₁ : Tree) (v : Value) (c : String) (fv gv : Value)
    (hk : dictGet (.vstr (configVersionKey o)) t = some v)
    (hv : vbeq v o.version = false)
    (hm : migrateModel env o t v = (t₁, some (.migrationFailed c fv gv))) :
    fromJsonObj env o t = (o, t₁, some (.migrationFailed c fv gv)) := by
  rw [fromJsonObj]
  simp only [hk, hv, Bool.false_eq_true, if_false, hm]

/-- Witness for C4: a versioned object with no migrations registered,
receiving a tree with a different embedded version, is returned unchanged
together with the error. -/
theorem c4_witness :
    fromJsonObj cEnv noMigObj [(.vstr "config_version", .vstr "1.0.0")] =
      (noMigObj, [(.vstr "config_version", .vstr "1.0.0")],
        some (.migrationFailed "VC1" (.vstr "1.0.0") (.vstr "1.0.1"))) :=
  c4_failed_migration_leaves_fields_untouched cEnv noMigObj _ _ _ _ _ _
    (by simp [configVersionKey, noMigObj, Obj.verKeyOverride, dictGet, vbeq])
    (by simp [vbeq, noMigObj, Obj.version])
    rfl

/-! ## Claim C9 -/

/-- C9 (confirmed).  Serialization has no side effects: for every object —
nested config-object fields included, and on the error paths as well — the
object state after `to_json_serializable` (the second component of the
state-threaded embedding) is exactly the object that was passed in. -/
theorem c9_serialize_no_side_effects (o₀ : Obj) : (serObj o₀).2 = o₀ := by
  refine serObj.induct (fun fs acc => (serFields fs acc).2 = fs) (fun o => (serObj o).2 = o)
    ?_ ?_ ?_ ?_ ?_ ?_ ?_ ?_ ?_ ?_ ?_ o₀
  · intro c a a₁ a₂ a₃ a₄ e f' hs hm
    have hf : f' = a := by rw [hs] at hm; exact hm
    rw [serObj]
    simp only [hs, hf]
  · intro c a a₁ a₂ a₃ a₄ attrs f' hs hv hm
    have hf : f' = a := by rw [hs] at hm; exact hm
    rw [serObj]
    simp only [hs, hv, if_true, hf]
  · intro c a a₁ a₂ a₃ a₄ attrs f' hs hv key hc n hl hm
    have hf : f' = a := by rw [hs] at hm; exact hm
    rw [serObj]
    simp only [hs, hv, hc, if_true, hl, hf]
    simp
  · intro c a a₁ a₂ a₃ a₄ attrs f' hs hv key hc hl hm
    have hf : f' = a := by rw [hs] at hm; exact hm
    rw [serObj]
    simp only [hs, hv, hc, if_true, hl, hf]
    simp
  · intro c a a₁ a₂ a₃ a₄ attrs f' hs hv key hc hm
    have hf : f' = a := by rw [hs] at hm; exact hm
    rw [serObj]
    simp only [hs, hf]
    simp [hv, hc]
  · intro acc
    rfl
  · intro n rest acc child e child' hs hp hm
    have hc : child' = child := by rw [hs] at hm; exact hm
    rw [serFields.eq_2]
    simp only [hp, if_true, hs, hc]
  · intro n rest acc child ct child' hs hp hm hrest
    have hc : child' = child := by rw [hs] at hm; exact hm
    rw [serFields.eq_2]
    simp only [hp, if_true, hs, hc, hrest]
  · intro n v rest acc hp hb hnobj hrest
    cases v <;> simp [serFields, hp, hb, hrest] <;> exact absurd rfl (hnobj _ ·)
  · intro n v rest acc hp hb hnobj
    cases v <;> simp [serFields, hp, hb] <;> exact absurd rfl (hnobj _ ·)
  · intro n v rest acc hp hrest
    cases v <;> simp [serFields, hp, hrest]

/-! ## Claim C10 -/

/-- C10 (confirmed).  `from_json_serializable` mutates its input tree:
whenever the version key is present in the incoming mapping and the call
succeeds, the caller's mapping has lost that key (the `del` acts on the
caller's dict, and migration transforms are handed that same dict), so the
final tree differs from the tree that was passed in. -/
theorem c10_deserialize_mutates_input_tree (env : MigEnv) (o : Obj) (t : Tree)
    (v : Value)
    (hk : dictGet (.vstr (configVersionKey o)) t = some v)
    (hs : (fromJsonObj env o t).2.2 = none) :
    dictGet (.vstr (configVersionKey o)) (fromJsonObj env o t).2.1 = none ∧
      (fromJsonObj env o t).2.1 ≠ t := by
  have key_absent :
      dictGet (.vstr (configVersionKey o)) (fromJsonObj env o t).2.1 = none := by
    rw [fromJsonObj] at hs ⊢
    simp only [hk] at hs ⊢
    by_cases hv : vbeq v o.version = true
    · simp only [hv, if_true] at hs ⊢
      have hpres := dictGet_some_hasKey hk
      simp only [hpres, if_true] at hs ⊢
      exact popLoop_key_none env o _ _ _ _ (dictGet_dictDel_self _ t)
    · simp only [hv, Bool.false_eq_true, if_false] at hs ⊢
      rcases hmig : migrateModel env o t v with ⟨t₁, err⟩
      cases err with
      | some e => simp [hmig] at hs
      | none =>
        simp only [hmig] at hs ⊢
        by_cases hpres : dictHasKey (.vstr (configVersionKey o)) t₁ = true
        · simp only [hpres, if_true] at hs ⊢
          exact popLoop_key_none env o _ _ _ _ (dictGet_dictDel_self _ t₁)
        · simp [hpres] at hs
  refine ⟨key_absent, fun heq => ?_⟩
  rw [heq, hk] at key_absent
  exact Option.noConfusion key_absent

/-! ## Claim C5 -/

/-- C5 (counterexample).  A tree key that names a method of the object's class
(not an instance field) makes `from_json_serializable` crash with Python's
`KeyError` (from the `self.__dict__[attrname]` subscript inside
`_is_instance_var`), not with the `InvalidFieldName` (`UnknownField`) error
the claim requires. -/
theorem c5_counterexample :
    fromJsonObj cEnv methodObj [(.vstr "custom_method1", .vint 3)] =
      (methodObj, [(.vstr "custom_method1", .vint 3)], some (.keyError "custom_method1"))
    ∧ ∀ s, Err.keyError "custom_method1" ≠ Err.invalidFieldName s := by
  constructor
  · simp [fromJsonObj, popLoop, methodObj, configVersionKey, dictGet, dictKeys,
      dictKeysAux, vbeq, isInstanceVar, hasattrB, fieldsGet,
      Obj.fields, Obj.verKeyOverride, Obj.classAttrs, Obj.withFields]
  · intro s h
    exact Err.noConfusion h

/-- C5 (amended).  Extra keys are never silently ignored, but the error kind
depends on why the key is illegal: a key that names no attribute at all
fails with `InvalidFieldName`, while a key that names a class attribute
(a method or property) that is not an instance field crashes with a raw
`KeyError`. -/
theorem c5_unknown_keys_rejected (env : MigEnv) (o : Obj) (t : Tree)
    (n : String) (rest : List Value)
    (hk : dictGet (.vstr (configVersionKey o)) t = none)
    (hks : dictKeys t = .vstr n :: rest) :
    (hasattrB o n = false →
       fromJsonObj env o t = (o, t, some (.invalidFieldName n)))
    ∧ (hasattrB o n = true → fieldsGet n o.fields = none →
       fromJsonObj env o t = (o, t, some (.keyError n))) := by
  have hpop : fromJsonObj env o t = popLoop env o o.fields t (dictKeys t) := by
    rw [fromJsonObj]
    simp only [hk]
  constructor
  · intro hna
    have hiv : isInstanceVar o n = .ok false := by simp [isInstanceVar, hna]
    rw [hpop, hks, popLoop.eq_2]
    simp only [hiv, withFields_self]
  · intro hha hgn
    have hiv : isInstanceVar o n = .error (.keyError n) := by
      simp [isInstanceVar, hha, hgn]
    rw [hpop, hks, popLoop.eq_2]
    simp only [hiv, withFields_self]

/-- Witness for C5's amended theorem: a key naming nothing gets
`InvalidFieldName`; a key naming a class method gets `KeyError`. -/
theorem c5_witness :
    (hasattrB methodObj "nothing" = false →
       fromJsonObj cEnv methodObj [(.vstr "nothing", .vint 1)] =
         (methodObj, [(.vstr "nothing", .vint 1)], some (.invalidFieldName "nothing")))
    ∧ (hasattrB methodObj "nothing" = true →
       fieldsGet "nothing" methodObj.fields = none →
       fromJsonObj cEnv methodObj [(.vstr "nothing", .vint 1)] =
         (methodObj, [(.vstr "nothing", .vint 1)], some (.keyError "nothing"))) :=
  c5_unknown_keys_rejected cEnv methodObj _ "nothing" []
    (by simp [configVersionKey, methodObj, Obj.verKeyOverride, dictGet, vbeq])
    (by simp [dictKeys, dictKeysAux])

/-! ## Claim C6 -/

/-- C6 (counterexample).  Serializing a versioned object whose *first* field
occupies the version key fails, but the `ValueError` carries the leaked loop
variable `n` — the *last* enumerated field name `"b"` — not the offending
name `"config_version"`. -/
theorem c6_counterexample :
    (serObj conflictObj).1 = .error (.valueErrorReserved "b")
    ∧ ("b" : String) ≠ configVersionKey conflictObj := by
  constructor
  · simp [serObj, serFields, conflictObj, isPublicField, isCallableV, underscoredName,
      isSerializableBuiltin, dictSet, dictHasKey, vbeq, lastPublicName]
  · intro h
    rw [show configVersionKey conflictObj = "config_version" from rfl] at h
    exact absurd h (by decide)

/-- C6 (amended).  A versioned object with a user field occupying the active
version key fails serialization with a `ValueError`, but the name the error
carries is that of the last enumerated public field, which need not be the
offending key; the same fields on an unversioned object serialize
successfully. -/
theorem c6_reserved_name_conflict (c : String) (f : List (String × Value))
    (a : List String) (V : Value) (k : Option String)
    (m : Option (List (Value × Value × Nat)))
    (c₂ : String) (a₂ : List String) (k₂ : Option String)
    (m₂ : Option (List (Value × Value × Nat)))
    (attrs : Tree) (f' : List (String × Value)) (n : String)
    (hs : serFields f [] = (.ok attrs, f'))
    (hV : vbeq V .vnone = false)
    (hc : dictHasKey (.vstr (k.getD "config_version")) attrs = true)
    (hl : lastPublicName f = some n) :
    (serObj (.mk c f a V k m)).1 = .error (.valueErrorReserved n)
    ∧ (serObj (.mk c₂ f a₂ .vnone k₂ m₂)).1 = .ok attrs := by
  constructor
  · rw [serObj]
    simp only [hs, hV, Bool.false_eq_true, if_false, hc, if_true, hl]
  · rw [serObj]
    simp only [hs]
    simp [vbeq]

/-- Witness for C6's amended theorem, at the concrete conflicting object:
the error names `"b"`, and the unversioned twin serializes the
`config_version` field as an ordinary entry. -/
theorem c6_witness :
    (serObj (.mk "VC1" [("config_version", .vint 1), ("b", .vint 2)] ["VERSION"]
        (.vstr "9.9.9") none none)).1 = .error (.valueErrorReserved "b")
    ∧ (serObj (.mk "VC1" [("config_version", .vint 1), ("b", .vint 2)] ["VERSION"]
        .vnone none none)).1 =
      .ok [(.vstr "config_version", .vint 1), (.vstr "b", .vint 2)] :=
  c6_reserved_name_conflict "VC1" [("config_version", .vint 1), ("b", .vint 2)]
    ["VERSION"] (.vstr "9.9.9") none none "VC1" ["VERSION"] none none
    [(.vstr "config_version", .vint 1), (.vstr "b", .vint 2)]
    [("config_version", .vint 1), ("b", .vint 2)] "b"
    (by simp [serFields, isPublicField, isCallableV, underscoredName,
          isSerializableBuiltin, dictSet, dictHasKey, vbeq])
    (by simp [vbeq])
    (by simp [dictHasKey, vbeq])
    (by simp [lastPublicName, isPublicField, isCallableV, underscoredName])

/-! ## Claim C7 -/

/-- C7 (counterexample).  A valid key whose current field value is `None` —
not a nested config object — does *not* get the incoming value assigned:
`from_json_serializable` checks the prior value's type and raises
`ObjectNotSerializableError` because `None` is not a serializable builtin. -/
theorem c7_counterexample :
    fromJsonObj cEnv noneFieldObj [(.vstr "a", .vint 5)] =
      (noneFieldObj, [(.vstr "a", .vint 5)], some (.objectNotSerializable "NoneType")) := by
  simp [fromJsonObj, popLoop, noneFieldObj, configVersionKey, dictGet, dictKeys,
    dictKeysAux, vbeq, isInstanceVar, hasattrB, fieldsGet, isCallableV, underscoredName,
    isSerializableBuiltin, valueClassName,
    Obj.fields, Obj.verKeyOverride, Obj.classAttrs, Obj.withFields]

/-- C7 (amended).  For a valid key whose current field value is a serializable
builtin, the incoming tree value is assigned directly, with no check of the
incoming value's type; but when the current value is neither a nested config
object nor a serializable builtin, deserialization fails with
`ObjectNotSerializableError` instead of assigning. -/
theorem c7_assignment_depends_on_prior_value (env : MigEnv) (o : Obj) (t : Tree)
    (n : String) (rest : List Value) (cur v : Value)
    (hk : dictGet (.vstr (configVersionKey o)) t = none)
    (hks : dictKeys t = .vstr n :: rest)
    (hha : hasattrB o n = true)
    (hg : fieldsGet n o.fields = some cur)
    (hcal : isCallableV cur = false)
    (hund : underscoredName n = false)
    (htv : dictGet (.vstr n) t = some v) :
    (isSerializableBuiltin cur = true →
       fromJsonObj env o t = popLoop env o (fieldsSet n v o.fields) t rest)
    ∧ (isSerializableBuiltin cur = false → (∀ ch, cur ≠ .vobj ch) →
       fromJsonObj env o t = (o, t, some (.objectNotSerializable (valueClassName cur)))) := by
  have hpop : fromJsonObj env o t = popLoop env o o.fields t (dictKeys t) := by
    rw [fromJsonObj]
    simp only [hk]
  have hiv : isInstanceVar o n = .ok true := by
    simp [isInstanceVar, hha, hg, hcal, hund]
  constructor
  · intro hb
    rw [hpop, hks, popLoop.eq_2]
    simp only [hiv]
    split
    · rename_i heq
      rw [hg] at heq
      exact Option.noConfusion heq
    · rename_i cur' heq
      rw [hg] at heq
      injection heq with h₂
      subst h₂
      cases cur with
      | vobj ch => simp [isSerializableBuiltin] at hb
      | vnone => simp [isSerializableBuiltin] at hb
      | vother c b => simp [isSerializableBuiltin] at hb
      | vint i => simp only [hb, if_true, htv]
      | vfloat x => simp only [hb, if_true, htv]
      | vbool b => simp only [hb, if_true, htv]
      | vstr s => simp only [hb, if_true, htv]
      | vlist xs => simp only [hb, if_true, htv]
      | vdict d => simp only [hb, if_true, htv]
  · intro hb hno
    rw [hpop, hks, popLoop.eq_2]
    simp only [hiv]
    split
    · rename_i heq
      rw [hg] at heq
      exact Option.noConfusion heq
    · rename_i cur' heq
      rw [hg] at heq
      injection heq with h₂
      subst h₂
      cases cur with
      | vobj ch => exact absurd rfl (hno ch)
      | vint i => simp [isSerializableBuiltin] at hb
      | vfloat x => simp [isSerializableBuiltin] at hb
      | vbool b => simp [isSerializableBuiltin] at hb
      | vstr s => simp [isSerializableBuiltin] at hb
      | vlist xs => simp [isSerializableBuiltin] at hb
      | vdict d => simp [isSerializableBuiltin] at hb
      | vnone => simp only [hb, Bool.false_eq_true, if_false, withFields_self]
      | vother c b => simp only [hb, Bool.false_eq_true, if_false, withFields_self]

/-- Witness for C7's amended theorem: field `a` currently holds the integer 7
and the incoming tree holds a *string* for it — the assignment branch is
taken with no type check against the prior value. -/
theorem c7_witness :
    (isSerializableBuiltin (Value.vint 7) = true →
       fromJsonObj cEnv intFieldObj [(.vstr "a", .vstr "now-a-string")] =
         popLoop cEnv intFieldObj (fieldsSet "a" (.vstr "now-a-string") intFieldObj.fields)
           [(.vstr "a", .vstr "now-a-string")] [])
    ∧ (isSerializableBuiltin (Value.vint 7) = false → (∀ ch, Value.vint 7 ≠ .vobj ch) →
       fromJsonObj cEnv intFieldObj [(.vstr "a", .vstr "now-a-string")] =
         (intFieldObj, [(.vstr "a", .vstr "now-a-string")],
           some (.objectNotSerializable (valueClassName (Value.vint 7))))) :=
  c7_assignment_depends_on_prior_value cEnv intFieldObj _ "a" [] (.vint 7)
    (.vstr "now-a-string")
    (by simp [configVersionKey, intFieldObj, Obj.verKeyOverride, dictGet, vbeq])
    (by simp [dictKeys, dictKeysAux])
    (by simp [hasattrB, intFieldObj, Obj.fields, Obj.classAttrs])
    (by simp [fieldsGet, intFieldObj, Obj.fields])
    (by simp [isCallableV])
    (by simp [underscoredName])
    (by simp [dictGet, vbeq])

/-! ## Claim C8 -/

/-- C8 (counterexample).  A field holding a list that contains a
non-serializable element serializes *successfully* — the element is copied
into the output tree unchecked — where the claim requires a
`NotSerializable` failure. -/
theorem c8_counterexample :
    (serObj badListObj).1 = .ok [(.vstr "a", .vlist [.vother "object" false])] := by
  simp [serObj, serFields, badListObj, isPublicField, isCallableV, underscoredName,
    isSerializableBuiltin, dictSet, dictHasKey, vbeq]

/-- C8 (amended).  The serializability check is shallow: it inspects only the
top-level runtime type of each field value.  A list or dict field is copied
into the output tree as-is, whatever it contains (non-serializable elements
included); only a field whose *direct* value is neither a builtin nor a
nested config object raises `ObjectNotSerializableError`. -/
theorem c8_shallow_serializability_check (c : String) (a : List String)
    (k : Option String) (m : Option (List (Value × Value × Nat))) :
    (∀ xs : List Value,
       (serObj (.mk c [("fld", .vlist xs)] a .vnone k m)).1 =
         .ok [(.vstr "fld", .vlist xs)])
    ∧ (∀ d : List (Value × Value),
       (serObj (.mk c [("fld", .vdict d)] a .vnone k m)).1 =
         .ok [(.vstr "fld", .vdict d)])
    ∧ (∀ cls : String,
       (serObj (.mk c [("fld", .vother cls false)] a .vnone k m)).1 =
         .error (.objectNotSerializable cls)) := by
  refine ⟨fun xs => ?_, fun d => ?_, fun cls => ?_⟩ <;>
    simp [serObj, serFields, isPublicField, isCallableV, underscoredName,
      isSerializableBuiltin, dictSet, dictHasKey, vbeq, valueClassName]

/-- Witness for C10: a versioned object whose embedded version matches — the
version key is removed from the caller's tree and the tree has changed. -/
theorem c10_witness :
    dictGet (.vstr (configVersionKey noMigObj))
        (fromJsonObj cEnv noMigObj
          [(.vstr "config_version", .vstr "1.0.1"), (.vstr "var1", .vint 33)]).2.1 = none ∧
      (fromJsonObj cEnv noMigObj
          [(.vstr "config_version", .vstr "1.0.1"), (.vstr "var1", .vint 33)]).2.1 ≠
        [(.vstr "config_version", .vstr "1.0.1"), (.vstr "var1", .vint 33)] :=
  c10_deserialize_mutates_input_tree cEnv noMigObj _ (.vstr "1.0.1")
    (by simp [configVersionKey, noMigObj, Obj.verKeyOverride, dictGet, vbeq])
    (by simp [fromJsonObj, popLoop, noMigObj, configVersionKey, dictGet, dictKeys,
          dictKeysAux, dictDel, dictHasKey, vbeq, isInstanceVar, hasattrB, fieldsGet,
          fieldsSet, isCallableV, isSerializableBuiltin, underscoredName,
          Obj.fields, Obj.verKeyOverride, Obj.classAttrs, Obj.version, Obj.migrations])

end VC
